import Mathlib

/-!
Shallow embedding of `src/crypto_worker.js`, a worker that fetches BTC and
EGLD prices and reconciles them into stored metafields, skipping Romanian
non-trading days.  JavaScript numbers are modelled as exact rationals (with
a separate constructor for `NaN`), JS `Date` values as proleptic Gregorian
calendar dates, and every network interaction as an explicit oracle value
handed to the embedded `run` function together with a trace of the calls
it performs.
-/

/-- Calendar date (year, month 1..12, day 1..31), the content of a JS `Date`
viewed in UTC.  The worker only ever builds dates through `Date.UTC` and
reads them back as UTC fields, so the proleptic Gregorian calendar is the
right model. -/
structure Date where
  year : Nat
  month : Nat
  day : Nat
  deriving DecidableEq, Repr

/-- Gregorian leap-year rule, as implemented by the JS `Date` normalisation
that `setUTCDate` relies on. -/
def isLeapYear (y : Nat) : Bool :=
  (y % 4 == 0 && y % 100 != 0) || y % 400 == 0

/-- Number of days in a month of a given year. -/
def daysInMonth (y m : Nat) : Nat :=
  if m = 2 then (if isLeapYear y then 29 else 28)
  else if m = 4 ∨ m = 6 ∨ m = 9 ∨ m = 11 then 30
  else 31

/-- Calendar successor of a date. -/
def nextDay (d : Date) : Date :=
  if d.day < daysInMonth d.year d.month then ⟨d.year, d.month, d.day + 1⟩
  else if d.month < 12 then ⟨d.year, d.month + 1, 1⟩
  else ⟨d.year + 1, 1, 1⟩

/-- Calendar predecessor of a date. -/
def prevDay (d : Date) : Date :=
  if 1 < d.day then ⟨d.year, d.month, d.day - 1⟩
  else if 1 < d.month then ⟨d.year, d.month - 1, daysInMonth d.year (d.month - 1)⟩
  else ⟨d.year - 1, 12, 31⟩

/-- `addDays(d, n)` from the source: shift a date by `n` calendar days
(`setUTCDate` normalises through the Gregorian calendar). -/
def addDays (d : Date) (n : Int) : Date :=
  if 0 ≤ n then Nat.iterate nextDay n.toNat d else Nat.iterate prevDay (-n).toNat d

/-- Days elapsed since 1970-01-01 (the JS epoch) for a Gregorian date,
computed by the standard civil-calendar day-count formula.  This models the
millisecond clock inside a JS `Date`. -/
def daysFromCivil (dt : Date) : Int :=
  let y : Int := if dt.month ≤ 2 then (dt.year : Int) - 1 else (dt.year : Int)
  let era : Int := (if 0 ≤ y then y else y - 399) / 400
  let yoe : Int := y - era * 400
  let mp : Int := ((dt.month : Int) + 9) % 12
  let doy : Int := (153 * mp + 2) / 5 + (dt.day : Int) - 1
  let doe : Int := yoe * 365 + yoe / 4 - yoe / 100 + doy
  era * 146097 + doe - 719468

/-- Inverse of `daysFromCivil`: the Gregorian date lying a given number of
days after 1970-01-01. -/
def civilFromDays (z0 : Int) : Date :=
  let z : Int := z0 + 719468
  let era : Int := (if 0 ≤ z then z else z - 146096) / 146097
  let doe : Int := z - era * 146097
  let yoe : Int := (doe - doe / 1460 + doe / 36524 - doe / 146096) / 365
  let y : Int := yoe + era * 400
  let doy : Int := doe - (365 * yoe + yoe / 4 - yoe / 100)
  let mp : Int := (5 * doy + 2) / 153
  let dd : Int := doy - (153 * mp + 2) / 5 + 1
  let mm : Int := if mp < 10 then mp + 3 else mp - 9
  ⟨(if mm ≤ 2 then y + 1 else y).toNat, mm.toNat, dd.toNat⟩

/-- `isoWeekday` from the source: Monday = 1 .. Sunday = 7.  The source
computes `getUTCDay()` (Sunday = 0) from the epoch day count — 1970-01-01
was a Thursday (`getUTCDay` = 4) — and maps 0 to 7. -/
def isoWeekday (d : Date) : Nat :=
  let dow := ((daysFromCivil d + 4) % 7).toNat
  if dow = 0 then 7 else dow

/-- Two-digit zero padding, as produced by `toISOString` for months/days. -/
def pad2 (n : Nat) : String :=
  if n < 10 then "0" ++ toString n else toString n

/-- Four-digit zero padding, as produced by `toISOString` for years in
0..9999. -/
def pad4 (n : Nat) : String :=
  if n < 10 then "000" ++ toString n
  else if n < 100 then "00" ++ toString n
  else if n < 1000 then "0" ++ toString n
  else toString n

/-- `isoOf` from the source: `d.toISOString().slice(0, 10)`, i.e. the
`YYYY-MM-DD` rendering of a date. -/
def isoOf (d : Date) : String :=
  pad4 d.year ++ "-" ++ pad2 d.month ++ "-" ++ pad2 d.day

/-- `orthodoxEasterGregorian` from the source: the closed-form Julian
computus followed by a 13-day shift into the Gregorian calendar (valid for
1900..2099).  The intermediate `e` is computed over `Int` exactly as the JS
expression `(2*a + 4*b - d + 34) % 7` is (its value is never negative, so
JS `%` and `Int.emod` agree). -/
def orthodoxEasterGregorian (year : Nat) : Date :=
  let a := year % 4
  let b := year % 7
  let c := year % 19
  let d := (19 * c + 15) % 30
  let e := ((2 * (a : Int) + 4 * (b : Int) - (d : Int) + 34) % 7).toNat
  let monthJul := (d + e + 114) / 31
  let dayJul := (d + e + 114) % 31 + 1
  addDays ⟨year, monthJul, dayJul⟩ 13

/-- Modelled from the spec: the movable-feast algorithm exactly as §4.1
words it — the same residues `a, b, c, d, e`, Julian month `(d+e+114) div
31`, Julian day `((d+e+114) mod 31) + 1`, and "the Gregorian date is the
Julian date plus 13 days", with the 13-day shift performed through
day-number arithmetic rather than the iterated calendar successor the code
model uses. -/
def movableFeastSpec (y : Nat) : Date :=
  let a := y % 4
  let b := y % 7
  let c := y % 19
  let d := (19 * c + 15) % 30
  let e := ((2 * (a : Int) + 4 * (b : Int) - (d : Int) + 34) % 7).toNat
  let monthJul := (d + e + 114) / 31
  let dayJul := (d + e + 114) % 31 + 1
  civilFromDays (daysFromCivil ⟨y, monthJul, dayJul⟩ + 13)

/-- The fixed civil/religious holiday dates of
`romaniaPublicHolidaysISO`, rendered with the same string template the
source uses. -/
def fixedHolidaysISO (year : Nat) : List String :=
  let ys := toString year
  [ys ++ "-01-01", ys ++ "-01-02", ys ++ "-01-06", ys ++ "-01-07",
   ys ++ "-01-24", ys ++ "-05-01", ys ++ "-06-01", ys ++ "-08-15",
   ys ++ "-11-30", ys ++ "-12-01", ys ++ "-12-25", ys ++ "-12-26"]

/-- The five Easter-anchored dates added by `romaniaPublicHolidaysISO`:
Good Friday, Easter Sunday, Easter Monday, Pentecost Sunday, Pentecost
Monday. -/
def movableClusterISO (year : Nat) : List String :=
  let easter := orthodoxEasterGregorian year
  [isoOf (addDays easter (-2)), isoOf easter, isoOf (addDays easter 1),
   isoOf (addDays easter 49), isoOf (addDays easter 50)]

/-- `romaniaPublicHolidaysISO` from the source: the fixed dates together
with the movable cluster.  The JS `Set` is modelled as a list; only
membership is ever consumed. -/
def romaniaPublicHolidaysISO (year : Nat) : List String :=
  fixedHolidaysISO year ++ movableClusterISO year

/-- `holidayName` from the source: Romanian names for the fixed dates, and
a generic fallback for everything else (in particular the Easter
cluster). -/
def holidayName (y : Nat) (iso : String) : String :=
  let ys := toString y
  if iso = ys ++ "-01-01" then "Anul Nou (Ziua 1)"
  else if iso = ys ++ "-01-02" then "Anul Nou (Ziua 2)"
  else if iso = ys ++ "-01-06" then "Boboteaza"
  else if iso = ys ++ "-01-07" then "Sf. Ioan Botezătorul"
  else if iso = ys ++ "-01-24" then "Unirea Principatelor"
  else if iso = ys ++ "-05-01" then "Ziua Muncii"
  else if iso = ys ++ "-06-01" then "Ziua Copilului"
  else if iso = ys ++ "-08-15" then "Adormirea Maicii Domnului"
  else if iso = ys ++ "-11-30" then "Sf. Andrei"
  else if iso = ys ++ "-12-01" then "Ziua Națională"
  else if iso = ys ++ "-12-25" then "Crăciun"
  else if iso = ys ++ "-12-26" then "A doua zi de Crăciun"
  else "Sărbătoare legală"

/-- Result of `isRomaniaHolidayInfo`. -/
structure HolidayInfo where
  isHoliday : Bool
  name : Option String
  deriving DecidableEq, Repr

/-- `isRomaniaHolidayInfo` from the source.  The source receives the ISO
string and re-extracts the year via `parseInt(iso.slice(0, 4))`; the model
receives the date itself, whose `year` field is what that extraction
yields for the 4-digit years the worker ever sees. -/
def isRomaniaHolidayInfo (dt : Date) : HolidayInfo :=
  let y := dt.year
  let set := romaniaPublicHolidaysISO y
  if set.contains (isoOf dt) then ⟨true, some (holidayName y (isoOf dt))⟩
  else ⟨false, none⟩

/-- The skip decision and reason computed at the top of `run` (source lines
82..89): skip when the weekday is 6 or 7 or the date is a holiday, with the
reason string `"weekend"` taking the weekday branch of the ternary first. -/
def gateReason (today : Date) : Option String :=
  let weekday := isoWeekday today
  let holInfo := isRomaniaHolidayInfo today
  if 6 ≤ weekday ∨ holInfo.isHoliday = true then
    some (if 6 ≤ weekday then "weekend" else "holiday:" ++ (holInfo.name.getD ""))
  else none

/-- A JavaScript number as far as the worker can observe one: either an
actual (finite) numeric value, modelled exactly as a rational, or `NaN`
(the result of `parseFloat` on a non-numeric string). -/
inductive JSVal where
  | num (q : ℚ)
  | nan
  deriving DecidableEq, Repr

/-- The decimal digit character for a digit value `0..9` (code points 48
through 57). -/
def digitChar (d : Nat) : Char :=
  Char.ofNat (48 + d % 10)

/-- Digit value of a character, `none` for non-digits. -/
def digitVal (c : Char) : Option Nat :=
  if 48 ≤ c.toNat ∧ c.toNat ≤ 57 then some (c.toNat - 48) else none

/-- Split a character list into its leading run of decimal digits (as digit
values) and the rest. -/
def takeDigits : List Char → List Nat × List Char
  | [] => ([], [])
  | c :: rest =>
    match digitVal c with
    | some d =>
      let p := takeDigits rest
      (d :: p.1, p.2)
    | none => ([], c :: rest)

/-- Value of a big-endian digit list. -/
def digitsToNat (ds : List Nat) : Nat :=
  ds.foldl (fun a d => a * 10 + d) 0

/-- Big-endian decimal digits of `n`, driven by explicit fuel so that the
definition is structural (`fuel` must exceed the number of digits). -/
def natDigits (fuel n : Nat) : List Nat :=
  match fuel with
  | 0 => []
  | f + 1 => if n < 10 then [n] else natDigits f (n / 10) ++ [n % 10]

/-- The decimal character rendering of a natural number, as JS produces for
integral values. -/
def natChars (n : Nat) : List Char :=
  (natDigits (n + 1) n).map digitChar

/-- The six digit values of a fraction `m < 10^6`, most significant
first — the zero-padded fractional block of `toFixed(6)`. -/
def fracDigits6 (m : Nat) : List Nat :=
  [m / 100000 % 10, m / 10000 % 10, m / 1000 % 10, m / 100 % 10, m / 10 % 10, m % 10]

/-- `x.toFixed(6)` on an exact numeric value: per the ECMAScript algorithm
the sign is split off first, then the magnitude is scaled by `10^6` and
rounded to the nearest integer with ties upward, and the result is printed
with exactly six fractional digits. -/
def jsToFixed6 (q : ℚ) : String :=
  let n : Nat := (⌊|q| * 1000000 + 1 / 2⌋).toNat
  let body := natChars (n / 1000000) ++ '.' :: (fracDigits6 (n % 1000000)).map digitChar
  String.mk (if q < 0 then '-' :: body else body)

/-- Exponent-part recogniser of `parseFloat`, applied after the mantissa:
an optional sign and a digit run; with no digits the exponent part is
ignored (JS backtracks and keeps the mantissa). -/
def parseExpTail (cs : List Char) : Int :=
  if cs.head? = some '-' then
    let p := takeDigits cs.tail
    if p.1 = [] then 0 else -(digitsToNat p.1 : Int)
  else if cs.head? = some '+' then
    let p := takeDigits cs.tail
    if p.1 = [] then 0 else (digitsToNat p.1 : Int)
  else
    let p := takeDigits cs
    if p.1 = [] then 0 else (digitsToNat p.1 : Int)

/-- Exponent marker recogniser of `parseFloat`. -/
def parseExpAt (cs : List Char) : Int :=
  if cs.head? = some 'e' ∨ cs.head? = some 'E' then parseExpTail cs.tail else 0

/-- Final stage of `parseFloat`: combine the sign, the integer digit run
and the fraction digit run (with the trailing characters scanned for an
exponent); `NaN` when no digit was consumed in either run. -/
def parseWithFrac (sgn : ℚ) (ids : List Nat) (fp : List Nat × List Char) : JSVal :=
  if ids = [] ∧ fp.1 = [] then JSVal.nan
  else
    JSVal.num (sgn * ((digitsToNat ids : ℚ) + (digitsToNat fp.1 : ℚ) / 10 ^ fp.1.length) *
      10 ^ parseExpAt fp.2)

/-- After the integer digit run: an optional `.` introduces the fraction
digit run. -/
def parseWithInt (sgn : ℚ) (ip : List Nat × List Char) : JSVal :=
  parseWithFrac sgn ip.1 (if ip.2.head? = some '.' then takeDigits ip.2.tail else ([], ip.2))

/-- `parseFloat` on a character list: optional sign, digit run, optional
`.` plus digit run, optional exponent; `NaN` when no digit was consumed.
Trailing garbage is ignored, as in JS.  (Leading whitespace and the
`Infinity` literal, which the worker never encounters, are not modelled.) -/
def parseFloatChars (cs : List Char) : JSVal :=
  parseWithInt (if cs.head? = some '-' then (-1 : ℚ) else 1)
    (takeDigits (if cs.head? = some '-' ∨ cs.head? = some '+' then cs.tail else cs))

/-- `parseFloat` on a string. -/
def jsParseFloat (s : String) : JSVal :=
  parseFloatChars s.toList

/-- `EPS` from the source: minimum change required to trigger an update. -/
def EPS : ℚ := 1 / 1000000

/-- `NS` from the source. -/
def NS : String := "custom"

/-- `BTC_KEY` from the source. -/
def BTC_KEY : String := "custom_crypto_btc"

/-- `EGLD_KEY` from the source. -/
def EGLD_KEY : String := "crypto_egld"

/-- `BTC_DATE_KEY` from the source. -/
def BTC_DATE_KEY : String := "custom_crypto_btc_date"

/-- `EGLD_DATE_KEY` from the source. -/
def EGLD_DATE_KEY : String := "crypto_egld_date"

/-- One entry of the `metafieldsSet` batch (source lines 112..118). -/
structure WriteItem where
  ns : String
  key : String
  mtype : String
  value : String
  deriving DecidableEq, Repr

/-- The change test of source lines 111 and 116:
`old === null || Math.abs(fetched - old) >= EPS`.  When the stored value
parsed to `NaN` the subtraction yields `NaN` and every `>=` comparison on
`NaN` is false, so the whole test is false. -/
def jsChanged (fetched : ℚ) (old : Option JSVal) : Bool :=
  match old with
  | none => true
  | some JSVal.nan => false
  | some (JSVal.num q) => decide (EPS ≤ |fetched - q|)

/-- Source lines 103 and 105: `meta.x?.value ? parseFloat(meta.x.value) :
null` — an absent metafield or an empty (falsy) string gives `null`,
anything else is run through `parseFloat`. -/
def oldOf (v : Option String) : Option JSVal :=
  match v with
  | none => none
  | some s => if s = "" then none else some (jsParseFloat s)

/-- Source lines 104 and 106: `meta.xDate?.value || null`. -/
def dateOf (v : Option String) : Option String :=
  match v with
  | none => none
  | some s => if s = "" then none else some s

/-- The BTC write items staged by source lines 111..114: when the change
test fires, the `toFixed(6)` value and the run date are pushed. -/
def btcItems (todayRO : String) (btcVal : ℚ) (oldBTC : Option JSVal) : List WriteItem :=
  if jsChanged btcVal oldBTC then
    [⟨NS, BTC_KEY, "number_decimal", jsToFixed6 btcVal⟩,
     ⟨NS, BTC_DATE_KEY, "single_line_text_field", todayRO⟩]
  else []

/-- The EGLD write items staged by source lines 116..119. -/
def egldItems (todayRO : String) (egldVal : ℚ) (oldEGLD : Option JSVal) : List WriteItem :=
  if jsChanged egldVal oldEGLD then
    [⟨NS, EGLD_KEY, "number_decimal", jsToFixed6 egldVal⟩,
     ⟨NS, EGLD_DATE_KEY, "single_line_text_field", todayRO⟩]
  else []

/-- The full staged batch (`items`) of one run, in push order. -/
def stagedItems (todayRO : String) (btcVal egldVal : ℚ)
    (oldBTC oldEGLD : Option JSVal) : List WriteItem :=
  btcItems todayRO btcVal oldBTC ++ egldItems todayRO egldVal oldEGLD

/-- A JSON value in a price position: a number, or something else
(JSON cannot encode `NaN`, so a present number is always a finite value). -/
inductive PriceVal where
  | num (q : ℚ)
  | nonNumber
  deriving DecidableEq, Repr

/-- One `quote[convert]` object of the CoinMarketCap response; `price` may
be absent or a non-number, both of which fail the
`typeof quote.price !== 'number'` guard. -/
structure CMCQuote where
  price : Option PriceVal
  deriving DecidableEq, Repr

/-- One `data[symbol]` entry; `quote` itself may be absent
(`entry.quote?.[convert]`). -/
structure CMCEntry where
  quote : Option (List (String × CMCQuote))
  deriving DecidableEq, Repr

/-- The parsed CoinMarketCap HTTP exchange: the transport status (`r.ok`)
and the optional `data` object, keyed by symbol. -/
structure CMCResponse where
  httpOk : Bool
  data : Option (List (String × CMCEntry))
  deriving DecidableEq, Repr

/-- First association for a key in an association list. -/
def lookupA {α : Type} (l : List (String × α)) (k : String) : Option α :=
  match l with
  | [] => none
  | (k', v) :: rest => if k' = k then some v else lookupA rest k

/-- The per-symbol validation of the `fetchCMC` loop body (source lines
236..241): the entry must exist and `entry.quote?.[convert].price` must be
a number, otherwise the loop throws. -/
def quoteOf (tbl : List (String × CMCEntry)) (convert sym : String) :
    Except String ℚ :=
  match lookupA tbl sym with
  | none => Except.error ("CMC data missing symbol " ++ sym)
  | some entry =>
    match entry.quote with
    | none => Except.error ("CMC data missing price for " ++ sym ++ " (" ++ convert ++ ")")
    | some quotes =>
      match lookupA quotes convert with
      | none => Except.error ("CMC data missing price for " ++ sym ++ " (" ++ convert ++ ")")
      | some q =>
        match q.price with
        | some (PriceVal.num p) => Except.ok p
        | _ => Except.error ("CMC data missing price for " ++ sym ++ " (" ++ convert ++ ")")

/-- The `for (const sym of symbols)` loop of `fetchCMC`: builds the
symbol-to-price map, failing at the first bad symbol. -/
def fetchLoop (tbl : List (String × CMCEntry)) (convert : String) :
    List String → Except String (List (String × ℚ))
  | [] => Except.ok []
  | sym :: rest =>
    match quoteOf tbl convert sym with
    | Except.error e => Except.error e
    | Except.ok p =>
      match fetchLoop tbl convert rest with
      | Except.error e => Except.error e
      | Except.ok tail => Except.ok ((sym, p) :: tail)

/-- `fetchCMC` from the source, applied to the already-parsed provider
response: transport failure and missing `data` throw, then every requested
symbol is validated. -/
def fetchCMC (resp : CMCResponse) (symbols : List String) (convert : String) :
    Except String (List (String × ℚ)) :=
  if resp.httpOk = false then Except.error "CMC fetch failed"
  else
    match resp.data with
    | none => Except.error "CMC response missing data"
    | some tbl => fetchLoop tbl convert symbols

/-- Whether the provider response carries a well-formed numeric price for a
symbol in the requested currency — the property whose failure makes
`fetchCMC` throw for that symbol. -/
def goodSym (resp : CMCResponse) (convert sym : String) : Bool :=
  match resp.data with
  | none => false
  | some tbl =>
    match quoteOf tbl convert sym with
    | Except.ok _ => true
    | Except.error _ => false

/-- Whether an `Except` is an error. -/
def isErr {α : Type} : Except String α → Bool
  | Except.error _ => true
  | Except.ok _ => false

/-- `env.CMC_CONVERT || "USD"` (source line 92): absent or empty means
`"USD"`. -/
def convOf (cc : Option String) : String :=
  match cc with
  | none => "USD"
  | some c => if c = "" then "USD" else c

/-- The network calls `run` can issue, in program order. -/
inductive NetCall where
  | cmcFetch
  | shopReq
  | metaRead
  | metaWrite
  deriving DecidableEq, Repr

/-- The four metafields returned by `readCryptoMetafields`: for each, the
stored string value, or `none` when the metafield does not exist. -/
structure StoredMeta where
  btc : Option String
  btcDate : Option String
  egld : Option String
  egldDate : Option String
  deriving DecidableEq, Repr

/-- The behaviour of the external collaborators during one run: the parsed
CoinMarketCap exchange, the shop-id request, the metafield read, and the
batch write (which may reject a batch). -/
structure RunOracles where
  cmc : CMCResponse
  shopId : Except String Nat
  meta : Except String StoredMeta
  writeRes : List WriteItem → Except String Unit

/-- The outcome object returned by `run`: the early skip return of source
lines 83..88, or the full summary of lines 126..136. -/
inductive RunResult where
  | skipped (reason : String) (dateRO : String)
  | completed (wrote : Bool) (btc egld : ℚ) (dateRO : String)
      (lastBTCDate lastEGLDDate : Option String) (shopId : Nat)
  deriving DecidableEq, Repr

/-- `run` from the source, with each network interaction replaced by its
oracle and recorded in the returned trace.  The resolved Romania-local
date (`romaniaISODate(new Date())`, a pure function of the clock and
timezone database) is an input.  Thrown errors are the `Except.error`
branch. -/
def run (hasShopURL hasShopToken hasCmcKey : Bool) (cmcConvert : Option String)
    (force : Bool) (today : Date) (o : RunOracles) :
    List NetCall × Except String RunResult :=
  if !hasShopURL || !hasShopToken then
    ([], Except.error "Missing SHOP_URL or SHOP_TOKEN.")
  else if !hasCmcKey then
    ([], Except.error "Missing CMC_API_KEY.")
  else
    let todayRO := isoOf today
    match (if force then none else gateReason today) with
    | some r => ([], Except.ok (RunResult.skipped r todayRO))
    | none =>
      let convert := convOf cmcConvert
      match fetchCMC o.cmc ["BTC", "EGLD"] convert with
      | Except.error e => ([NetCall.cmcFetch], Except.error e)
      | Except.ok rates =>
        let btcVal := ((lookupA rates "BTC").getD 0 : ℚ)
        let egldVal := ((lookupA rates "EGLD").getD 0 : ℚ)
        match o.shopId with
        | Except.error e => ([NetCall.cmcFetch, NetCall.shopReq], Except.error e)
        | Except.ok shopId =>
          match o.meta with
          | Except.error e =>
            ([NetCall.cmcFetch, NetCall.shopReq, NetCall.metaRead], Except.error e)
          | Except.ok meta =>
            let oldBTC := oldOf meta.btc
            let oldBTCDate := dateOf meta.btcDate
            let oldEGLD := oldOf meta.egld
            let oldEGLDDate := dateOf meta.egldDate
            let items := stagedItems todayRO btcVal egldVal oldBTC oldEGLD
            if items.length > 0 then
              match o.writeRes items with
              | Except.error e =>
                ([NetCall.cmcFetch, NetCall.shopReq, NetCall.metaRead, NetCall.metaWrite],
                 Except.error e)
              | Except.ok _ =>
                ([NetCall.cmcFetch, NetCall.shopReq, NetCall.metaRead, NetCall.metaWrite],
                 Except.ok (RunResult.completed true btcVal egldVal todayRO
                   oldBTCDate oldEGLDDate shopId))
            else
              ([NetCall.cmcFetch, NetCall.shopReq, NetCall.metaRead],
               Except.ok (RunResult.completed false btcVal egldVal todayRO
                 oldBTCDate oldEGLDDate shopId))

/-! ### Helper lemmas -/

theorem digitVal_digitChar {d : Nat} (h : d < 10) : digitVal (digitChar d) = some d := by
  interval_cases d <;> decide

theorem digitChar_ne_sign {d : Nat} (h : d < 10) :
    digitChar d ≠ '-' ∧ digitChar d ≠ '+' := by
  interval_cases d <;> exact ⟨by decide, by decide⟩

theorem takeDigits_spec (ds : List Nat) (rest : List Char)
    (h1 : ∀ d ∈ ds, d < 10)
    (h2 : ∀ c, rest.head? = some c → digitVal c = none) :
    takeDigits (ds.map digitChar ++ rest) = (ds, rest) := by
  induction ds with
  | nil =>
    simp only [List.map_nil, List.nil_append]
    cases rest with
    | nil => rfl
    | cons c r =>
      have := h2 c rfl
      simp [takeDigits, this]
  | cons d ds ih =>
    have hd : d < 10 := h1 d (by simp)
    have ihs := ih (fun x hx => h1 x (by simp [hx]))
    simp only [List.map_cons, List.cons_append, takeDigits, digitVal_digitChar hd,
      List.append_eq, ihs]

theorem digitsToNat_append_single (l : List Nat) (x : Nat) :
    digitsToNat (l ++ [x]) = digitsToNat l * 10 + x := by
  simp [digitsToNat, List.foldl_append]

theorem digitsToNat_natDigits : ∀ (f n : Nat), n < 10 ^ f →
    digitsToNat (natDigits f n) = n := by
  intro f
  induction f with
  | zero => intro n hn; interval_cases n; rfl
  | succ f ih =>
    intro n hn
    by_cases h : n < 10
    · simp [natDigits, h, digitsToNat]
    · have hdiv : n / 10 < 10 ^ f := by
        rw [Nat.div_lt_iff_lt_mul (by norm_num)]
        calc n < 10 ^ (f + 1) := hn
        _ = 10 ^ f * 10 := by ring
      simp only [natDigits, h, if_false]
      rw [digitsToNat_append_single, ih _ hdiv]
      omega

theorem natDigits_lt : ∀ (f n : Nat), ∀ d ∈ natDigits f n, d < 10 := by
  intro f
  induction f with
  | zero => intro n d hd; simp [natDigits] at hd
  | succ f ih =>
    intro n d hd
    by_cases h : n < 10
    · simp [natDigits, h] at hd; omega
    · simp only [natDigits, h, if_false, List.mem_append, List.mem_singleton] at hd
      rcases hd with hd | hd
      · exact ih _ d hd
      · omega

theorem natDigits_ne_nil (f n : Nat) (h : 0 < f) : natDigits f n ≠ [] := by
  cases f with
  | zero => omega
  | succ f =>
    by_cases h10 : n < 10 <;> simp [natDigits, h10]

theorem self_lt_ten_pow (n : Nat) : n < 10 ^ (n + 1) := by
  calc n < 2 ^ n * 1 := by simpa using Nat.lt_two_pow n
  _ ≤ 10 ^ n * 10 := Nat.mul_le_mul (Nat.pow_le_pow_left (by norm_num) n) (by norm_num)
  _ = 10 ^ (n + 1) := by ring

theorem fracDigits6_lt (m : Nat) : ∀ d ∈ fracDigits6 m, d < 10 := by
  intro d hd
  simp [fracDigits6] at hd
  rcases hd with h | h | h | h | h | h <;> omega

theorem digitsToNat_fracDigits6 (m : Nat) (h : m < 1000000) :
    digitsToNat (fracDigits6 m) = m := by
  simp only [digitsToNat, fracDigits6, List.foldl]
  omega

theorem takeDigits_all (fs : List Nat) (hfs : ∀ x ∈ fs, x < 10) :
    takeDigits (fs.map digitChar) = (fs, []) := by
  have := takeDigits_spec fs [] hfs (by intro c hc; simp at hc)
  simpa using this

theorem parse_mantissa (d : Nat) (ds fs : List Nat)
    (hds : ∀ x ∈ d :: ds, x < 10) (hfs : ∀ x ∈ fs, x < 10) :
    parseFloatChars ((d :: ds).map digitChar ++ '.' :: fs.map digitChar) =
      JSVal.num ((digitsToNat (d :: ds) : ℚ) + (digitsToNat fs : ℚ) / 10 ^ fs.length) := by
  have hd : d < 10 := hds d (by simp)
  have hm : digitChar d ≠ '-' := (digitChar_ne_sign hd).1
  have hp : digitChar d ≠ '+' := (digitChar_ne_sign hd).2
  have hip : takeDigits ((d :: ds).map digitChar ++ '.' :: fs.map digitChar) =
      (d :: ds, '.' :: fs.map digitChar) :=
    takeDigits_spec (d :: ds) ('.' :: fs.map digitChar) hds
      (by intro c hc; simp at hc; subst hc; rfl)
  have hhead : ((d :: ds).map digitChar ++ '.' :: fs.map digitChar).head? =
      some (digitChar d) := by simp
  rw [parseFloatChars, hhead]
  rw [if_neg (by simp [hm]), if_neg (by simp [hm, hp]), hip, parseWithInt]
  simp only [List.head?_cons, List.tail_cons, if_pos rfl, takeDigits_all fs hfs]
  rw [parseWithFrac, if_neg (by simp)]
  simp [parseExpAt, parseExpTail]

theorem parse_mantissa_neg (d : Nat) (ds fs : List Nat)
    (hds : ∀ x ∈ d :: ds, x < 10) (hfs : ∀ x ∈ fs, x < 10) :
    parseFloatChars ('-' :: ((d :: ds).map digitChar ++ '.' :: fs.map digitChar)) =
      JSVal.num (-((digitsToNat (d :: ds) : ℚ) + (digitsToNat fs : ℚ) / 10 ^ fs.length)) := by
  have hip : takeDigits ((d :: ds).map digitChar ++ '.' :: fs.map digitChar) =
      (d :: ds, '.' :: fs.map digitChar) :=
    takeDigits_spec (d :: ds) ('.' :: fs.map digitChar) hds
      (by intro c hc; simp at hc; subst hc; rfl)
  rw [parseFloatChars]
  simp only [List.head?_cons, if_pos rfl, List.tail_cons, or_iff_left_iff_imp, true_or,
    if_pos (Or.inl rfl), ite_true]
  rw [hip, parseWithInt]
  simp only [List.head?_cons, List.tail_cons, if_pos rfl, takeDigits_all fs hfs]
  rw [parseWithFrac, if_neg (by simp)]
  simp [parseExpAt, parseExpTail]

theorem fracDigits6_length (m : Nat) : (fracDigits6 m).length = 6 := rfl

theorem natCast_div_add_mod_q (n : Nat) :
    ((n / 1000000 : Nat) : ℚ) + ((n % 1000000 : Nat) : ℚ) / 10 ^ 6 = (n : ℚ) / 1000000 := by
  have h : (1000000 : Nat) * (n / 1000000) + n % 1000000 = n := Nat.div_add_mod n 1000000
  have hq : (1000000 : ℚ) * ((n / 1000000 : Nat) : ℚ) + ((n % 1000000 : Nat) : ℚ) = (n : ℚ) := by
    exact_mod_cast congrArg (fun x : Nat => (x : ℚ)) h
  field_simp
  linarith

theorem jsParseFloat_jsToFixed6 (q : ℚ) :
    jsParseFloat (jsToFixed6 q) =
      JSVal.num ((if q < 0 then -1 else 1) * ((⌊|q| * 1000000 + 1 / 2⌋).toNat : ℚ) / 1000000) := by
  set n : Nat := (⌊|q| * 1000000 + 1 / 2⌋).toNat with hn
  obtain ⟨d, ds, hds⟩ : ∃ d ds, natDigits (n / 1000000 + 1) (n / 1000000) = d :: ds := by
    cases hh : natDigits (n / 1000000 + 1) (n / 1000000) with
    | nil => exact absurd hh (natDigits_ne_nil _ _ (Nat.succ_pos _))
    | cons d ds => exact ⟨d, ds, rfl⟩
  have hdlt : ∀ x ∈ d :: ds, x < 10 := by
    intro x hx
    exact natDigits_lt _ _ x (hds ▸ hx)
  have hflt := fracDigits6_lt (n % 1000000)
  have hint : digitsToNat (d :: ds) = n / 1000000 := by
    rw [← hds]
    exact digitsToNat_natDigits _ _ (self_lt_ten_pow _)
  have hfrac : digitsToNat (fracDigits6 (n % 1000000)) = n % 1000000 :=
    digitsToNat_fracDigits6 _ (Nat.mod_lt _ (by norm_num))
  have hbody : natChars (n / 1000000) = (d :: ds).map digitChar := by
    rw [natChars, hds]
  rcases lt_or_le q 0 with hq | hq
  · have : jsToFixed6 q = String.mk
        ('-' :: ((d :: ds).map digitChar ++ '.' :: (fracDigits6 (n % 1000000)).map digitChar)) := by
      rw [jsToFixed6, if_pos hq, ← hn, hbody]
    rw [this, jsParseFloat]
    have hlist : (String.mk ('-' :: ((d :: ds).map digitChar ++ '.' ::
        (fracDigits6 (n % 1000000)).map digitChar))).toList =
        '-' :: ((d :: ds).map digitChar ++ '.' :: (fracDigits6 (n % 1000000)).map digitChar) := rfl
    rw [hlist, parse_mantissa_neg d ds _ hdlt hflt, hint, hfrac, fracDigits6_length,
      natCast_div_add_mod_q, if_pos hq]
    congr 1
    ring
  · have : jsToFixed6 q = String.mk
        ((d :: ds).map digitChar ++ '.' :: (fracDigits6 (n % 1000000)).map digitChar) := by
      rw [jsToFixed6, if_neg (not_lt.mpr hq), ← hn, hbody]
    rw [this, jsParseFloat]
    have hlist : (String.mk ((d :: ds).map digitChar ++ '.' ::
        (fracDigits6 (n % 1000000)).map digitChar)).toList =
        (d :: ds).map digitChar ++ '.' :: (fracDigits6 (n % 1000000)).map digitChar := rfl
    rw [hlist, parse_mantissa d ds _ hdlt hflt, hint, hfrac, fracDigits6_length,
      natCast_div_add_mod_q, if_neg (not_lt.mpr hq)]
    congr 1
    ring

theorem fixedVal_close (q : ℚ) :
    |q - (if q < 0 then -1 else 1) * ((⌊|q| * 1000000 + 1 / 2⌋).toNat : ℚ) / 1000000| ≤
      1 / 2000000 := by
  set x : ℚ := |q| * 1000000 with hx
  have hx0 : 0 ≤ x := by
    rw [hx]
    positivity
  have hfl0 : (0 : Int) ≤ ⌊x + 1 / 2⌋ := Int.floor_nonneg.mpr (by linarith)
  have hcast : ((⌊x + 1 / 2⌋.toNat : Nat) : ℚ) = ((⌊x + 1 / 2⌋ : Int) : ℚ) := by
    exact_mod_cast congrArg (fun z : Int => (z : ℚ)) (Int.toNat_of_nonneg hfl0)
  have h1 : ((⌊x + 1 / 2⌋ : Int) : ℚ) ≤ x + 1 / 2 := Int.floor_le _
  have h2 : x + 1 / 2 < ((⌊x + 1 / 2⌋ : Int) : ℚ) + 1 := Int.lt_floor_add_one _
  rcases lt_or_le q 0 with hq | hq
  · rw [if_pos hq, hcast]
    have habs : |q| = -q := abs_of_neg hq
    rw [abs_le]
    constructor <;> nlinarith [habs, h1, h2]
  · rw [if_neg (not_lt.mpr hq), hcast]
    have habs : |q| = q := abs_of_nonneg hq
    rw [abs_le]
    constructor <;> nlinarith [habs, h1, h2]

theorem jsToFixed6_ne_empty (q : ℚ) : jsToFixed6 q ≠ "" := by
  rw [jsToFixed6]
  intro h
  have hdata := congrArg String.data h
  by_cases hq : q < 0 <;> simp [hq] at hdata

theorem jsChanged_jsToFixed6 (q : ℚ) :
    jsChanged q (oldOf (some (jsToFixed6 q))) = false := by
  rw [oldOf]
  rw [if_neg (jsToFixed6_ne_empty q), jsParseFloat_jsToFixed6]
  rw [jsChanged]
  apply decide_eq_false
  intro hle
  have hclose := fixedVal_close q
  have : EPS ≤ 1 / 2000000 := le_trans hle hclose
  rw [EPS] at this
  norm_num at this

set_option maxRecDepth 10000 in
/-- Range check backing the movable-feast claim: over 1900..2099 the
source computation and the spec-worded computation agree. -/
theorem feastRangeAgrees : (List.range 200).all
    (fun i => decide (orthodoxEasterGregorian (1900 + i) = movableFeastSpec (1900 + i))) = true := by
  decide

/-- Claim C4: for every year Y in [1900, 2099], the movable-feast date is
computed exactly by the stated closed-form algorithm — residues a, b, c,
d, e, Julian month/day from d+e+114, and a 13-day Julian-to-Gregorian
shift. -/
theorem movable_feast_formula_C4 :
    ∀ y : Nat, 1900 ≤ y → y ≤ 2099 → orthodoxEasterGregorian y = movableFeastSpec y := by
  intro y h1 h2
  have hmem : y - 1900 ∈ List.range 200 := by
    rw [List.mem_range]
    omega
  have := List.all_eq_true.mp feastRangeAgrees _ hmem
  have heq : 1900 + (y - 1900) = y := by omega
  rw [heq] at this
  exact of_decide_eq_true this

/-- Witness for C4 at the concrete year 2024. -/
theorem movable_feast_formula_C4_witness :
    orthodoxEasterGregorian 2024 = movableFeastSpec 2024 :=
  movable_feast_formula_C4 2024 (by norm_num) (by norm_num)

set_option maxRecDepth 10000 in
/-- Claim C3, counterexample: the movable-feast computation for 2024 does
not return April 14. -/
theorem easter2024_not_april14_C3 :
    orthodoxEasterGregorian 2024 ≠ (⟨2024, 4, 14⟩ : Date) := by
  decide

set_option maxRecDepth 10000 in
/-- Claim C3 as amended: for year 2024 the movable-feast computation
returns May 5, which is the published Orthodox Easter date (Gregorian) for
2024. -/
theorem easter2024_may5_C3 :
    orthodoxEasterGregorian 2024 = (⟨2024, 5, 5⟩ : Date) := by
  decide

/-- Claim C5: for every year, the holiday set holds exactly the fixed
civil/religious dates of that year together with the five-date moving
cluster F-2, F, F+1, F+49, F+50 around the movable feast F, and nothing
else. -/
theorem holiday_set_union_C5 :
    ∀ (year : Nat) (s : String),
      s ∈ romaniaPublicHolidaysISO year ↔
        s ∈ fixedHolidaysISO year ∨ s ∈ movableClusterISO year := by
  intro year s
  rw [romaniaPublicHolidaysISO]
  exact List.mem_append

set_option maxRecDepth 10000 in
/-- Claim C2, counterexample: 2024-12-01 (the national day) falls on a
Sunday; the calendar evaluation reports it with the generic weekend
reason, not with the holiday's name — the weekend branch, not the holiday
branch, takes precedence. -/
theorem holiday_weekend_reason_cex_C2 :
    (isRomaniaHolidayInfo ⟨2024, 12, 1⟩).isHoliday = true ∧
    isoWeekday ⟨2024, 12, 1⟩ = 7 ∧
    gateReason ⟨2024, 12, 1⟩ = some "weekend" ∧
    gateReason ⟨2024, 12, 1⟩ ≠ some ("holiday:" ++ holidayName 2024 (isoOf ⟨2024, 12, 1⟩)) := by
  refine ⟨by decide, by decide, by decide, by decide⟩

/-- Claim C2 as amended: for every holiday date the weekend check takes
precedence — a holiday falling on a weekend day is reported with the
generic weekend reason, and the holiday's human-readable reason appears
only on non-weekend holiday dates. -/
theorem weekend_over_holiday_C2 :
    ∀ dt : Date, (isRomaniaHolidayInfo dt).isHoliday = true →
      (6 ≤ isoWeekday dt → gateReason dt = some "weekend") ∧
      (isoWeekday dt < 6 →
        gateReason dt = some ("holiday:" ++ holidayName dt.year (isoOf dt))) := by
  intro dt hhol
  constructor
  · intro hw
    rw [gateReason]
    rw [if_pos (Or.inl hw), if_pos hw]
  · intro hw
    rw [gateReason]
    rw [if_pos (Or.inr hhol), if_neg (by omega)]
    rw [isRomaniaHolidayInfo] at hhol ⊢
    by_cases hc : (romaniaPublicHolidaysISO dt.year).contains (isoOf dt)
    · rw [if_pos hc]
      rfl
    · rw [if_neg hc] at hhol
      exact absurd hhol (by decide)

set_option maxRecDepth 10000 in
/-- Witness for the amended C2: the weekend-holiday 2024-12-01 gets the
weekend reason, the midweek holiday 2024-12-25 gets the holiday reason. -/
theorem weekend_over_holiday_C2_witness :
    gateReason ⟨2024, 12, 1⟩ = some "weekend" ∧
    gateReason ⟨2024, 12, 25⟩ =
      some ("holiday:" ++ holidayName 2024 (isoOf ⟨2024, 12, 25⟩)) :=
  ⟨(weekend_over_holiday_C2 ⟨2024, 12, 1⟩ (by decide)).1 (by decide),
   (weekend_over_holiday_C2 ⟨2024, 12, 25⟩ (by decide)).2 (by decide)⟩


theorem parse_stored_50000 : jsParseFloat "50000.000000" = JSVal.num 50000 := by
  have hl : "50000.000000".toList =
      ((5 : Nat) :: [0, 0, 0, 0]).map digitChar ++ '.' :: ([0, 0, 0, 0, 0, 0] :
        List Nat).map digitChar := rfl
  rw [jsParseFloat, hl, parse_mantissa 5 [0, 0, 0, 0] [0, 0, 0, 0, 0, 0]
    (by decide) (by decide)]
  norm_num [digitsToNat]

theorem oldOf_stored_50000 : oldOf (some "50000.000000") = some (JSVal.num 50000) := by
  rw [oldOf, if_neg (by decide), parse_stored_50000]

theorem changed_small_false :
    jsChanged (50000 + 5 / 10000000) (oldOf (some "50000.000000")) = false := by
  rw [oldOf_stored_50000, jsChanged]
  apply decide_eq_false
  intro hle
  rw [show (50000 + 5 / 10000000 : ℚ) - 50000 = 5 / 10000000 by norm_num,
    abs_of_pos (by norm_num)] at hle
  rw [EPS] at hle
  norm_num at hle

theorem changed_2e6_true :
    jsChanged (50000 + 2 / 1000000) (oldOf (some "50000.000000")) = true := by
  rw [oldOf_stored_50000, jsChanged]
  apply decide_eq_true
  rw [show (50000 + 2 / 1000000 : ℚ) - 50000 = 2 / 1000000 by norm_num,
    abs_of_pos (by norm_num), EPS]
  norm_num

/-- Claim C1: a quantity's two writes (value and date) are staged exactly
when the stored value is absent or the fetched value differs from it by at
least EPS = 1e-6; concretely, against a stored "50000.000000" a fetched
50000.0000005 stages nothing while a fetched 50000.000002 stages exactly
the BTC value write and the BTC date write. -/
theorem staging_epsilon_rule_C1 :
    (∀ (today : String) (b : ℚ), btcItems today b none =
      [⟨NS, BTC_KEY, "number_decimal", jsToFixed6 b⟩,
       ⟨NS, BTC_DATE_KEY, "single_line_text_field", today⟩]) ∧
    (∀ (today : String) (b q : ℚ), btcItems today b (some (JSVal.num q)) =
      if EPS ≤ |b - q| then
        [⟨NS, BTC_KEY, "number_decimal", jsToFixed6 b⟩,
         ⟨NS, BTC_DATE_KEY, "single_line_text_field", today⟩]
      else []) ∧
    (∀ (today : String) (e : ℚ), egldItems today e none =
      [⟨NS, EGLD_KEY, "number_decimal", jsToFixed6 e⟩,
       ⟨NS, EGLD_DATE_KEY, "single_line_text_field", today⟩]) ∧
    (∀ (today : String) (e q : ℚ), egldItems today e (some (JSVal.num q)) =
      if EPS ≤ |e - q| then
        [⟨NS, EGLD_KEY, "number_decimal", jsToFixed6 e⟩,
         ⟨NS, EGLD_DATE_KEY, "single_line_text_field", today⟩]
      else []) ∧
    btcItems "2025-10-10" (50000 + 5 / 10000000) (oldOf (some "50000.000000")) = [] ∧
    btcItems "2025-10-10" (50000 + 2 / 1000000) (oldOf (some "50000.000000")) =
      [⟨NS, BTC_KEY, "number_decimal", jsToFixed6 (50000 + 2 / 1000000)⟩,
       ⟨NS, BTC_DATE_KEY, "single_line_text_field", "2025-10-10"⟩] := by
  refine ⟨fun today b => rfl, fun today b q => ?_, fun today e => rfl, fun today e q => ?_,
    ?_, ?_⟩
  · by_cases h : EPS ≤ |b - q|
    · rw [if_pos h]
      simp [btcItems, jsChanged, h]
    · rw [if_neg h]
      simp [btcItems, jsChanged, h]
  · by_cases h : EPS ≤ |e - q|
    · rw [if_pos h]
      simp [egldItems, jsChanged, h]
    · rw [if_neg h]
      simp [egldItems, jsChanged, h]
  · rw [btcItems, changed_small_false]
    rfl
  · rw [btcItems, changed_2e6_true]
    rfl

/-- Claim C8: the writes staged for one quantity depend only on that
quantity's fetched and stored values — varying the other quantity's inputs
never changes them.  The BTC-keyed part of the batch is invariant under any
change of the EGLD inputs, and symmetrically. -/
theorem staging_frame_C8 :
    ∀ (today : String) (b e e2 : ℚ) (ob oe oe2 : Option JSVal),
      ((stagedItems today b e ob oe).filter
          (fun it => it.key == BTC_KEY || it.key == BTC_DATE_KEY) =
        (stagedItems today b e2 ob oe2).filter
          (fun it => it.key == BTC_KEY || it.key == BTC_DATE_KEY)) ∧
      ∀ (b2 : ℚ) (ob2 : Option JSVal),
        (stagedItems today b e ob oe).filter
            (fun it => it.key == EGLD_KEY || it.key == EGLD_DATE_KEY) =
          (stagedItems today b2 e ob2 oe).filter
            (fun it => it.key == EGLD_KEY || it.key == EGLD_DATE_KEY) := by
  intro today b e e2 ob oe oe2
  constructor
  · rw [stagedItems, stagedItems, List.filter_append, List.filter_append]
    congr 1
    · rcases Bool.eq_false_or_eq_true (jsChanged e oe) with h1 | h1 <;>
        rcases Bool.eq_false_or_eq_true (jsChanged e2 oe2) with h2 | h2 <;>
        simp [egldItems, h1, h2, EGLD_KEY, EGLD_DATE_KEY, BTC_KEY, BTC_DATE_KEY]
  · intro b2 ob2
    rw [stagedItems, stagedItems, List.filter_append, List.filter_append]
    congr 1
    rcases Bool.eq_false_or_eq_true (jsChanged b ob) with h1 | h1 <;>
      rcases Bool.eq_false_or_eq_true (jsChanged b2 ob2) with h2 | h2 <;>
      simp [btcItems, h1, h2, EGLD_KEY, EGLD_DATE_KEY, BTC_KEY, BTC_DATE_KEY]

/-- Claim C10: a non-empty stored string that parses to NaN makes the
change test false, so neither the value write nor the date write is staged
for that quantity, whatever the fetched value is. -/
theorem corrupt_stored_suppresses_C10 :
    ∀ (today : String) (v : ℚ) (s : String), s ≠ "" → jsParseFloat s = JSVal.nan →
      jsChanged v (oldOf (some s)) = false ∧
      btcItems today v (oldOf (some s)) = [] ∧
      egldItems today v (oldOf (some s)) = [] := by
  intro today v s hne hnan
  have hold : oldOf (some s) = some JSVal.nan := by
    rw [oldOf, if_neg hne, hnan]
  refine ⟨?_, ?_, ?_⟩ <;> simp [btcItems, egldItems, hold, jsChanged]

/-- Witness for C10: the corrupt stored string "abc". -/
theorem corrupt_stored_suppresses_C10_witness :
    jsChanged 1 (oldOf (some "abc")) = false ∧
    btcItems "2025-10-10" 1 (oldOf (some "abc")) = [] ∧
    egldItems "2025-10-10" 1 (oldOf (some "abc")) = [] :=
  corrupt_stored_suppresses_C10 "2025-10-10" 1 "abc" (by decide) (by decide)

/-- Claim C6: with force unset and the resolved Romania-local date a
weekend day or holiday, the run returns the skipped result carrying the
gate's reason and issues no network call at all — the trace is empty, so
there is no price fetch, no stored-state read and no write. -/
theorem skip_no_network_C6 :
    ∀ (cc : Option String) (today : Date) (o : RunOracles) (r : String),
      gateReason today = some r →
      run true true true cc false today o =
        ([], Except.ok (RunResult.skipped r (isoOf today))) := by
  intro cc today o r hr
  rw [run]
  simp only [Bool.not_true, Bool.or_self, Bool.false_eq_true, if_false, if_neg]
  rw [hr]

set_option maxRecDepth 10000 in
/-- Witness for C6: Saturday 2025-01-04, concrete oracles, empty trace. -/
theorem skip_no_network_C6_witness :
    run true true true none false ⟨2025, 1, 4⟩
      ⟨⟨true, none⟩, Except.ok 1, Except.ok ⟨none, none, none, none⟩, fun _ => Except.ok ()⟩ =
      ([], Except.ok (RunResult.skipped "weekend" (isoOf ⟨2025, 1, 4⟩))) :=
  skip_no_network_C6 none ⟨2025, 1, 4⟩ _ "weekend" (by decide)

/-- Claim C7: whenever the provider response lacks a well-formed numeric
price for BTC or for EGLD, `fetchCMC` fails, and a run using that response
stops at the price fetch with an error: its trace is exactly the fetch
call, so no read happens and no write is staged for either symbol. -/
theorem fetch_all_or_nothing_C7 :
    ∀ (resp : CMCResponse) (conv : String),
      goodSym resp conv "BTC" = false ∨ goodSym resp conv "EGLD" = false →
      isErr (fetchCMC resp ["BTC", "EGLD"] conv) = true ∧
      ∀ (cc : Option String) (today : Date) (o : RunOracles),
        o.cmc = resp → convOf cc = conv →
        (run true true true cc true today o).1 = [NetCall.cmcFetch] ∧
        isErr (run true true true cc true today o).2 = true := by
  intro resp conv hbad
  have hfc : isErr (fetchCMC resp ["BTC", "EGLD"] conv) = true := by
    rw [fetchCMC]
    rcases Bool.eq_false_or_eq_true resp.httpOk with hok | hok
    · rw [if_neg (by simp [hok])]
      simp only [goodSym] at hbad
      cases hdata : resp.data with
      | none => rfl
      | some tbl =>
        rw [hdata] at hbad
        simp only [fetchLoop]
        cases hq1 : quoteOf tbl conv "BTC" with
        | error e => rfl
        | ok p =>
          cases hq2 : quoteOf tbl conv "EGLD" with
          | error e => rfl
          | ok p2 =>
            simp [hq1, hq2] at hbad
    · rw [if_pos hok]
      rfl
  refine ⟨hfc, ?_⟩
  intro cc today o hcm hconv
  obtain ⟨msg, hmsg⟩ : ∃ m, fetchCMC resp ["BTC", "EGLD"] conv = Except.error m := by
    cases hf : fetchCMC resp ["BTC", "EGLD"] conv with
    | error m => exact ⟨m, rfl⟩
    | ok v =>
      rw [hf] at hfc
      exact absurd hfc (by simp [isErr])
  rw [run]
  simp only [Bool.not_true, Bool.or_self, Bool.false_eq_true, if_false, ite_true]
  rw [hcm, hconv, hmsg]
  exact ⟨rfl, rfl⟩

/-- Witness for C7: a well-formed response carrying a BTC price but no
EGLD entry at all. -/
theorem fetch_all_or_nothing_C7_witness :
    isErr (fetchCMC ⟨true, some [("BTC", ⟨some [("USD", ⟨some (PriceVal.num 1)⟩)]⟩)]⟩
      ["BTC", "EGLD"] "USD") = true ∧
    ((run true true true none true ⟨2025, 10, 10⟩
        ⟨⟨true, some [("BTC", ⟨some [("USD", ⟨some (PriceVal.num 1)⟩)]⟩)]⟩,
         Except.ok 1, Except.ok ⟨none, none, none, none⟩, fun _ => Except.ok ()⟩).1 =
      [NetCall.cmcFetch] ∧
     isErr (run true true true none true ⟨2025, 10, 10⟩
        ⟨⟨true, some [("BTC", ⟨some [("USD", ⟨some (PriceVal.num 1)⟩)]⟩)]⟩,
         Except.ok 1, Except.ok ⟨none, none, none, none⟩, fun _ => Except.ok ()⟩).2 = true) := by
  have h := fetch_all_or_nothing_C7
    ⟨true, some [("BTC", ⟨some [("USD", ⟨some (PriceVal.num 1)⟩)]⟩)]⟩ "USD"
    (Or.inr (by rfl))
  exact ⟨h.1, h.2 none ⟨2025, 10, 10⟩ _ rfl rfl⟩

/-- After a write, the freshly stored `toFixed(6)` string never retriggers
the change test; without a write the stored value and hence the test are
unchanged. -/
theorem jsChanged_after_write (v : ℚ) (s : Option String) :
    jsChanged v (oldOf (if jsChanged v (oldOf s) then some (jsToFixed6 v) else s)) = false := by
  rcases Bool.eq_false_or_eq_true (jsChanged v (oldOf s)) with h | h
  · rw [if_pos h]
    exact jsChanged_jsToFixed6 v
  · rw [if_neg (by simp [h])]
    exact h

/-- Claim C9: a second run against the identical upstream snapshot, whose
stored values are the 6-digit decimal strings the first run wrote (fields
the first run did not write keep their old stored value), stages no writes
and completes with wrote = false. -/
theorem run_idempotent_C9 :
    ∀ (cc : Option String) (force2 : Bool) (today1 today2 : Date) (o2 : RunOracles)
      (b e : ℚ) (sb sbd se sed : Option String) (sid2 : Nat),
      stagedItems (isoOf today1) b e (oldOf sb) (oldOf se) ≠ [] →
      fetchCMC o2.cmc ["BTC", "EGLD"] (convOf cc) = Except.ok [("BTC", b), ("EGLD", e)] →
      o2.shopId = Except.ok sid2 →
      o2.meta = Except.ok ⟨if jsChanged b (oldOf sb) then some (jsToFixed6 b) else sb, sbd,
        if jsChanged e (oldOf se) then some (jsToFixed6 e) else se, sed⟩ →
      (force2 = true ∨ gateReason today2 = none) →
      run true true true cc force2 today2 o2 =
        ([NetCall.cmcFetch, NetCall.shopReq, NetCall.metaRead],
         Except.ok (RunResult.completed false b e (isoOf today2)
           (dateOf sbd) (dateOf sed) sid2)) := by
  intro cc force2 today1 today2 o2 b e sb sbd se sed sid2 hwrote hfetch hshop hmeta hgate
  have hscrut : (if force2 then none else gateReason today2) = (none : Option String) := by
    rcases hgate with h | h
    · simp [h]
    · cases force2 <;> simp [h]
  rw [run]
  simp only [Bool.not_true, Bool.or_self, Bool.false_eq_true, if_false]
  rw [hscrut, hfetch, hshop, hmeta]
  have hlook1 : lookupA [("BTC", b), ("EGLD", e)] "BTC" = some b := by
    simp [lookupA]
  have hlook2 : lookupA [("BTC", b), ("EGLD", e)] "EGLD" = some e := by
    simp [lookupA]
  have hstaged : stagedItems (isoOf today2) b e
      (oldOf (if jsChanged b (oldOf sb) then some (jsToFixed6 b) else sb))
      (oldOf (if jsChanged e (oldOf se) then some (jsToFixed6 e) else se)) = [] := by
    simp only [stagedItems, btcItems, egldItems,
      jsChanged_after_write, Bool.false_eq_true, if_false, List.append_nil]
  simp [hlook1, hlook2, hstaged]

/-- Witness for C9: after a first run writes both fields from a fresh
store, a forced second run on the same snapshot completes without
writing. -/
theorem run_idempotent_C9_witness :
    run true true true none true ⟨2025, 10, 10⟩
      ⟨⟨true, some [("BTC", ⟨some [("USD", ⟨some (PriceVal.num 50000)⟩)]⟩),
         ("EGLD", ⟨some [("USD", ⟨some (PriceVal.num 30)⟩)]⟩)]⟩,
       Except.ok 7,
       Except.ok ⟨if jsChanged 50000 (oldOf none) then some (jsToFixed6 50000) else none, none,
         if jsChanged 30 (oldOf none) then some (jsToFixed6 30) else none, none⟩,
       fun _ => Except.ok ()⟩ =
      ([NetCall.cmcFetch, NetCall.shopReq, NetCall.metaRead],
       Except.ok (RunResult.completed false 50000 30 (isoOf ⟨2025, 10, 10⟩)
         (dateOf none) (dateOf none) 7)) :=
  run_idempotent_C9 none true ⟨2025, 10, 10⟩ ⟨2025, 10, 10⟩ _ 50000 30 none none none none 7
    (by simp [stagedItems, btcItems, egldItems, jsChanged, oldOf])
    (by rfl) (by rfl) (by rfl) (Or.inl rfl)
